import Mathlib

/-!
Verification development for the layered configuration-resolution core of the
dendron workspace application, together with the lookup-controller component.

The ConfigStore implementation itself is not part of the visible sources (only
its test suite is), so the configuration data model, merge engine, codec and
store operations below are modelled from the specification, as indicated in
their doc comments.  The LookupControllerV3 definitions are translated directly
from `packages/plugin-core/src/components/lookup/LookupControllerV3.ts`.
-/

/-! ## Configuration trees -/

mutual

/-- Modelled from the spec: a configuration tree (PartialConfig / ResolvedConfig).
Any field, at any nesting depth, may be absent; scalar leaves are strings,
integers and booleans; arrays are atomic values at the field level. -/
inductive Value where
  | vstr : String → Value
  | vnum : Int → Value
  | vbool : Bool → Value
  | varr : VList → Value
  | vobj : Fields → Value

/-- A list of array elements of a configuration tree. -/
inductive VList where
  | nil : VList
  | cons : Value → VList → VList

/-- An association list of named fields of a configuration object. -/
inductive Fields where
  | nil : Fields
  | cons : String → Value → Fields → Fields

end

/-- Convert an ordinary list of key/value pairs into `Fields`. -/
def Fields.ofList : List (String × Value) → Fields
  | [] => .nil
  | (k, v) :: t => .cons k v (Fields.ofList t)

/-- Convert an ordinary list of values into `VList`. -/
def VList.ofList : List Value → VList
  | [] => .nil
  | v :: t => .cons v (VList.ofList t)

/-- First field with the given key, if any. -/
def lookupF (k : String) : Fields → Option Value
  | .nil => none
  | .cons k' v rest => if k' = k then some v else lookupF k rest

/-- Whether a value is an object node. -/
def Value.isObjB : Value → Bool
  | .vobj _ => true
  | _ => false

/-- Walk a field path through a configuration tree. -/
def getPath : Value → List String → Option Value
  | v, [] => some v
  | .vobj fs, k :: rest =>
    match lookupF k fs with
    | some v => getPath v rest
    | none => none
  | _, _ :: _ => none

/-- Every value present at a proper prefix of the path is an object node. -/
def objAlong (o : Value) (q : List String) : Bool :=
  (List.range q.length).all fun i =>
    match getPath o (q.take i) with
    | some w => w.isObjB
    | none => true

/-- Append two field lists. -/
def fAppend : Fields → Fields → Fields
  | .nil, g => g
  | .cons k v t, g => .cons k v (fAppend t g)

/-- Fields of the first list whose key does not occur in the second list. -/
def restFields : Fields → Fields → Fields
  | .nil, _ => .nil
  | .cons k v t, fs =>
    match lookupF k fs with
    | some _ => restFields t fs
    | none => .cons k v (restFields t fs)

mutual

/-- Structural equality of configuration trees. -/
def beqV : Value → Value → Bool
  | .vstr a, .vstr b => a = b
  | .vnum a, .vnum b => a = b
  | .vbool a, .vbool b => a = b
  | .varr a, .varr b => beqVL a b
  | .vobj a, .vobj b => beqF a b
  | _, _ => false

/-- Structural equality of array-element lists. -/
def beqVL : VList → VList → Bool
  | .nil, .nil => true
  | .cons a t, .cons b u => beqV a b && beqVL t u
  | _, _ => false

/-- Structural equality of field lists. -/
def beqF : Fields → Fields → Bool
  | .nil, .nil => true
  | .cons k a t, .cons k' b u => k = k' && beqV a b && beqF t u
  | _, _ => false

end

/-- Whether a value occurs (up to `beqV`) in an array-element list. -/
def memVL (v : Value) : VList → Bool
  | .nil => false
  | .cons w t => beqV v w || memVL v t

mutual

/-- Modelled from the spec: the Merge Engine's deep merge.  Field-by-field,
nested-object-aware; a field present in the higher-priority operand (first
argument) always wins, including explicit falsy values; only true absence
falls through to the lower-priority operand.  Arrays are atomic. -/
def deepMerge : Value → Value → Value
  | .vobj fs, .vobj gs => .vobj (fAppend (mergeFields fs gs) (restFields gs fs))
  | hi, _ => hi

/-- Merge each higher-priority field with the matching lower-priority field. -/
def mergeFields : Fields → Fields → Fields
  | .nil, _ => .nil
  | .cons k v t, gs =>
    match lookupF k gs with
    | some w => .cons k (deepMerge v w) (mergeFields t gs)
    | none => .cons k v (mergeFields t gs)

end

/-- Elements of the first array not occurring in the second array, in order
(the semantics of lodash differenceWith over structural equality). -/
def diffVL : VList → VList → VList
  | .nil, _ => .nil
  | .cons v t, o => if memVL v o then diffVL t o else .cons v (diffVL t o)

mutual

/-- Modelled from the spec: the write-back filter of the Config Store.  The
persisted base file is the residual after subtracting override-owned fields
from the given fully-resolved config: at each nesting level, a field whose
path the override defines is removed (field-path-scoped subtraction, sibling
fields of the same parent object are retained); when both the config and the
override hold an array at the path, the subtraction is the set-subtraction
required by the vault-filtering semantics, and a field whose residual array is
empty is removed. -/
def subtractOverride : Value → Value → Value
  | .vobj cs, .vobj os => .vobj (subFields cs os)
  | c, _ => c

/-- Subtract override-owned fields from one field list. -/
def subFields : Fields → Fields → Fields
  | .nil, _ => .nil
  | .cons k v t, os =>
    match lookupF k os with
    | none => .cons k v (subFields t os)
    | some (.vobj osub) => .cons k (subtractOverride v (.vobj osub)) (subFields t os)
    | some (.varr ovs) =>
      match v with
      | .varr cvs =>
        match diffVL cvs ovs with
        | .nil => subFields t os
        | d => .cons k (.varr d) (subFields t os)
      | _ => subFields t os
    | some _ => subFields t os

end

/-! ## Raw Config Codec -/

/-- Unary encoding of a natural number, terminated by a semicolon. -/
def uEnc (n : Nat) : List Char := List.replicate n 'i' ++ [';']

/-- Parse a unary-encoded natural number. -/
def parseU : List Char → Option (Nat × List Char)
  | [] => none
  | c :: rest =>
    if c = ';' then some (0, rest)
    else if c = 'i' then
      match parseU rest with
      | some (n, r) => some (n + 1, r)
      | none => none
    else none

/-- Take exactly n characters from the input. -/
def takeN : Nat → List Char → Option (List Char × List Char)
  | 0, l => some ([], l)
  | _ + 1, [] => none
  | n + 1, c :: l =>
    match takeN n l with
    | some (a, r) => some (c :: a, r)
    | none => none

mutual

/-- Size measure of a configuration tree, used as parser fuel bound. -/
def sizeV : Value → Nat
  | .vstr _ => 1
  | .vnum _ => 1
  | .vbool _ => 1
  | .varr xs => 1 + sizeVL xs
  | .vobj fs => 1 + sizeF fs

/-- Size measure of an array-element list. -/
def sizeVL : VList → Nat
  | .nil => 0
  | .cons v t => 1 + sizeV v + sizeVL t

/-- Size measure of a field list. -/
def sizeF : Fields → Nat
  | .nil => 0
  | .cons _ v t => 1 + sizeV v + sizeF t

end

mutual

/-- Modelled from the spec: the Raw Config Codec's serializer, a total function
producing the structured-text representation of a configuration tree; it
preserves exactly what is present in the tree without injecting defaults. -/
def encodeV : Value → List Char
  | .vstr s => 's' :: (uEnc s.data.length ++ s.data)
  | .vnum (.ofNat m) => 'n' :: uEnc m
  | .vnum (.negSucc m) => 'm' :: uEnc m
  | .vbool b => [if b then 'T' else 'F']
  | .varr xs => 'a' :: (uEnc (lenVL xs) ++ encodeVL xs)
  | .vobj fs => 'o' :: (uEnc (lenF fs) ++ encodeF fs)

/-- Serialize the elements of an array. -/
def encodeVL : VList → List Char
  | .nil => []
  | .cons v t => encodeV v ++ encodeVL t

/-- Serialize a field list: each field is a length-prefixed key followed by
the encoded value. -/
def encodeF : Fields → List Char
  | .nil => []
  | .cons k v t => uEnc k.data.length ++ k.data ++ encodeV v ++ encodeF t

/-- Number of elements of an array-element list. -/
def lenVL : VList → Nat
  | .nil => 0
  | .cons _ t => lenVL t + 1

/-- Number of fields of a field list. -/
def lenF : Fields → Nat
  | .nil => 0
  | .cons _ _ t => lenF t + 1

end

mutual

/-- Modelled from the spec: the Raw Config Codec's deserializer; fails (with a
parse error at the store level) on malformed structured text.  The first
argument is recursion fuel. -/
def parseV : Nat → List Char → Option (Value × List Char)
  | 0, _ => none
  | _ + 1, [] => none
  | fuel + 1, c :: cs =>
    if c = 'T' then some (.vbool true, cs)
    else if c = 'F' then some (.vbool false, cs)
    else if c = 's' then
      match parseU cs with
      | some (n, r) =>
        match takeN n r with
        | some (chars, r2) => some (.vstr (String.mk chars), r2)
        | none => none
      | none => none
    else if c = 'n' then
      match parseU cs with
      | some (n, r) => some (.vnum (Int.ofNat n), r)
      | none => none
    else if c = 'm' then
      match parseU cs with
      | some (n, r) => some (.vnum (Int.negSucc n), r)
      | none => none
    else if c = 'a' then
      match parseU cs with
      | some (n, r) =>
        match parseVL fuel n r with
        | some (xs, r2) => some (.varr xs, r2)
        | none => none
      | none => none
    else if c = 'o' then
      match parseU cs with
      | some (n, r) =>
        match parseF fuel n r with
        | some (fs, r2) => some (.vobj fs, r2)
        | none => none
      | none => none
    else none

/-- Parse a given number of array elements. -/
def parseVL : Nat → Nat → List Char → Option (VList × List Char)
  | _, 0, l => some (.nil, l)
  | 0, _ + 1, _ => none
  | fuel + 1, n + 1, l =>
    match parseV fuel l with
    | some (v, r) =>
      match parseVL fuel n r with
      | some (t, r2) => some (.cons v t, r2)
      | none => none
    | none => none

/-- Parse a given number of fields. -/
def parseF : Nat → Nat → List Char → Option (Fields × List Char)
  | _, 0, l => some (.nil, l)
  | 0, _ + 1, _ => none
  | fuel + 1, n + 1, l =>
    match parseU l with
    | some (kn, r) =>
      match takeN kn r with
      | some (kchars, r2) =>
        match parseV fuel r2 with
        | some (v, r3) =>
          match parseF fuel n r3 with
          | some (t, r4) => some (.cons (String.mk kchars) v t, r4)
          | none => none
        | none => none
      | none => none
    | none => none

end

/-- Modelled from the spec: encode a configuration tree to text. -/
def encode (v : Value) : String := String.mk (encodeV v)

/-- Modelled from the spec: decode text into a configuration tree; none
signals malformed content (a parse error). -/
def decode (s : String) : Option Value :=
  match parseV (s.data.length + 1) s.data with
  | some (v, []) => some v
  | _ => none

/-! ## Config Store -/

/-- A logical storage location: a root directory and a file name. -/
structure Loc where
  root : String
  fname : String
deriving DecidableEq

/-- Modelled from the spec: the injected Storage Capability, an abstraction
over file existence/read at a location; none means the location is absent or
unreadable. -/
def Storage : Type := Loc → Option String

/-- The concrete path of a location, as reported in error messages. -/
def Loc.path (l : Loc) : String := l.root ++ "/" ++ l.fname

/-- Modelled from the spec: the error taxonomy of the Config Store; each
failure is returned as a typed result, never thrown. -/
inductive CsError where
  | readError : String → CsError
  | parseError : String → CsError
  | persistError : CsError
deriving DecidableEq

/-- The user-visible message of an error; read failures name the concrete
path that was attempted. -/
def CsError.message : CsError → String
  | .readError p => "Failed to read from " ++ p
  | .parseError p => "Failed to parse " ++ p
  | .persistError => "Failed to persist"

/-- The two read modes of the Config Store. -/
inductive ReadMode where
  | plain : ReadMode
  | withOverride : ReadMode
deriving DecidableEq

/-- Modelled from the spec: a Config Store instance: workspace root, home
directory and the per-mode config cache (invalidated only by a fresh
non-cached read or a write). -/
structure ConfigStore where
  wsRoot : String
  homeDir : String
  cachePlain : Option Value := none
  cacheOverride : Option Value := none

/-- Location of the base config file (workspace root, fixed name). -/
def ConfigStore.baseLoc (cs : ConfigStore) : Loc :=
  { root := cs.wsRoot, fname := "dendron.yml" }

/-- Location of the workspace-scope override file. -/
def ConfigStore.wsOverrideLoc (cs : ConfigStore) : Loc :=
  { root := cs.wsRoot, fname := "dendronrc.yml" }

/-- Location of the home-scope override file. -/
def ConfigStore.homeOverrideLoc (cs : ConfigStore) : Loc :=
  { root := cs.homeDir, fname := "dendronrc.yml" }

/-- Cache lookup for a read mode. -/
def ConfigStore.cacheGet (cs : ConfigStore) : ReadMode → Option Value
  | .plain => cs.cachePlain
  | .withOverride => cs.cacheOverride

/-- Cache update for a read mode. -/
def ConfigStore.cacheSet (cs : ConfigStore) (m : ReadMode) (v : Value) : ConfigStore :=
  match m with
  | .plain => { cs with cachePlain := some v }
  | .withOverride => { cs with cacheOverride := some v }

/-- Modelled from the spec: the schema-complete output of the Default Config
Provider; pure and deterministic, every recognized field is populated. -/
def defaultConfig : Value :=
  .vobj (.ofList [
    ("version", .vnum 5),
    ("commands", .vobj (.ofList [
      ("lookup", .vobj (.ofList [
        ("note", .vobj (.ofList [
          ("selectionMode", .vstr "extract"),
          ("confirmVaultOnCreate", .vbool false),
          ("leaveTrace", .vbool false)]))]))])),
    ("workspace", .vobj (.ofList [
      ("vaults", .varr .nil),
      ("enableAutoCreateOnDefinition", .vbool false),
      ("enableHandlebarTemplates", .vbool false)])),
    ("preview", .vobj (.ofList [
      ("enableFMTitle", .vbool true),
      ("enableNoteTitleForLink", .vbool true)]))])

/-- Modelled from the spec: readRaw reads the base config location via the
Storage Capability and decodes it with the Raw Config Codec; it fails with a
ReadError carrying the failing location when the base file is missing, and
with a ParseError when its content is malformed.  No defaults are injected and
no overrides are applied. -/
def ConfigStore.readRaw (st : Storage) (cs : ConfigStore) : Except CsError Value :=
  match st cs.baseLoc with
  | none => .error (.readError cs.baseLoc.path)
  | some bytes =>
    match decode bytes with
    | none => .error (.parseError cs.baseLoc.path)
    | some v => .ok v

/-- Read one override layer: absence of the file is a normal, non-fatal
condition (layer absent); malformed content is a parse error. -/
def ConfigStore.readOverrideLayer (st : Storage) (l : Loc) : Except CsError (Option Value) :=
  match st l with
  | none => .ok none
  | some bytes =>
    match decode bytes with
    | none => .error (.parseError l.path)
    | some v => .ok (some v)

/-- Modelled from the spec: the Override Resolver.  It reads the
workspace-scope and home-scope override files independently and deep-merges
the home override under the workspace override (per field, a
workspace-defined value wins; otherwise the home value applies; otherwise the
field is absent).  If neither file exists the result is the empty partial
config. -/
def ConfigStore.resolveOverride (st : Storage) (cs : ConfigStore) : Except CsError Value :=
  match ConfigStore.readOverrideLayer st cs.wsOverrideLoc with
  | .error e => .error e
  | .ok wsv =>
    match ConfigStore.readOverrideLayer st cs.homeOverrideLoc with
    | .error e => .error e
    | .ok homev =>
      match wsv, homev with
      | some w, some h => .ok (deepMerge w h)
      | some w, none => .ok w
      | none, some h => .ok h
      | none, none => .ok (.vobj .nil)

/-- Modelled from the spec: a non-cached read.  It calls readRaw; in plain
(default) mode the raw content is merged with the Default Config Provider's
output; in override mode the resolved override is merged onto the raw content
first, and the result is then merged with the defaults (overrides and raw
values both take priority over defaults).  The cache entry for the mode is
populated with the result. -/
def ConfigStore.readFresh (st : Storage) (cs : ConfigStore) (mode : ReadMode) :
    Except CsError (Value × ConfigStore) :=
  match ConfigStore.readRaw st cs with
  | .error e => .error e
  | .ok raw =>
    match mode with
    | .plain =>
      let r := deepMerge raw defaultConfig
      .ok (r, cs.cacheSet .plain r)
    | .withOverride =>
      match ConfigStore.resolveOverride st cs with
      | .error e => .error e
      | .ok ov =>
        let r := deepMerge (deepMerge ov raw) defaultConfig
        .ok (r, cs.cacheSet .withOverride r)

/-- Modelled from the spec: read.  If useCache is set and a cache entry exists
for the mode, it is returned without touching storage; otherwise a fresh read
is performed. -/
def ConfigStore.read (st : Storage) (cs : ConfigStore) (mode : ReadMode) (useCache : Bool) :
    Except CsError (Value × ConfigStore) :=
  if useCache then
    match cs.cacheGet mode with
    | some v => .ok (v, cs)
    | none => ConfigStore.readFresh st cs mode
  else ConfigStore.readFresh st cs mode

/-- Modelled from the spec: create generates the schema-complete default
config, encodes and persists it to the base config location (overwriting any
existing content), and returns the persisted config. -/
def ConfigStore.create (st : Storage) (cs : ConfigStore) : Value × Storage :=
  (defaultConfig,
   fun l => if l = cs.baseLoc then some (encode defaultConfig) else st l)

/-- Modelled from the spec: write resolves the current override to learn which
fields are override-owned, subtracts them from the given fully-resolved
config, encodes and persists the residual to the base config location, and
invalidates the cache.  It returns the persisted (post-filter) partial
config. -/
def ConfigStore.write (st : Storage) (cs : ConfigStore) (config : Value) :
    Except CsError (Value × Storage × ConfigStore) :=
  match ConfigStore.resolveOverride st cs with
  | .error e => .error e
  | .ok ov =>
    let filtered := subtractOverride config ov
    .ok (filtered,
         fun l => if l = cs.baseLoc then some (encode filtered) else st l,
         { cs with cachePlain := none, cacheOverride := none })

/-! ## LookupControllerV3
Translated from packages/plugin-core/src/components/lookup/LookupControllerV3.ts. -/

/-- A lookup button as far as LookupControllerV3 manipulates it: its type
identifier and its pressed state. -/
structure DendronBtn where
  btype : String
  pressed : Bool
deriving DecidableEq

/-- State of a LookupControllerV3 instance: the constructor stores the node
type and the buttons, sets buttonsPrev to the empty list, defaults the fuzz
threshold, and leaves the quickpick uninitialized. -/
structure LookupControllerV3 where
  nodeType : String
  buttons : List DendronBtn
  buttonsPrev : List DendronBtn
  fuzzThreshold : Rat
  quickpickInit : Bool
deriving DecidableEq

/-- The LookupControllerV3 constructor.  JavaScript's
fuzzThreshold-or-0.6 idiom makes an absent option and the (falsy) value 0
both fall back to 0.6. -/
def LookupControllerV3.construct (nodeType : String) (buttons : List DendronBtn)
    (fuzzThreshold : Option Rat) : LookupControllerV3 :=
  { nodeType := nodeType
    buttons := buttons
    buttonsPrev := []
    fuzzThreshold :=
      match fuzzThreshold with
      | none => 0.6
      | some x => if x = 0 then 0.6 else x
    quickpickInit := false }

/-- prepareQuickPick initializes the quickpick (the part of its behavior
relevant to onTriggerButton). -/
def LookupControllerV3.prepare (c : LookupControllerV3) : LookupControllerV3 :=
  { c with quickpickInit := true }

/-- The transformation onTriggerButton applies to state.buttons once the
triggered button (the first button whose type matches the trigger) has been
located: the triggered button's pressed flag is toggled, and - unless the
triggered button's category is effect - every button of a different type
but the same category is unpressed.  Returns none when no button matches
(the source would crash dereferencing undefined). -/
def triggerList (cat : String → String) (ty : String) : List DendronBtn → Option (List DendronBtn)
  | [] => none
  | b :: rest =>
    if b.btype = ty then
      let b' : DendronBtn := { b with pressed := !b.pressed }
      if cat ty = "effect" then some (b' :: rest)
      else
        some (b' :: rest.map fun e =>
          if e.btype ≠ ty ∧ cat e.btype = cat ty then { e with pressed := false } else e)
    else
      match triggerList cat ty rest with
      | none => none
      | some r =>
        if cat ty = "effect" then some (b :: r)
        else some ((if b.btype ≠ ty ∧ cat b.btype = cat ty then { b with pressed := false } else b) :: r)

/-- LookupControllerV3.onTriggerButton: without an initialized quickpick the
handler returns early leaving the state unchanged; otherwise the button state
is updated as in triggerList.  The button category is computed by the external
getButtonCategory, modelled as a function cat from button type to category
name. -/
def onTriggerButton (cat : String → String) (c : LookupControllerV3) (ty : String) :
    Option LookupControllerV3 :=
  if c.quickpickInit = false then some c
  else
    match triggerList cat ty c.buttons with
    | none => none
    | some bs => some { c with buttons := bs }

/-! ## Codec round-trip -/

theorem parseU_uEnc (n : Nat) (rest : List Char) :
    parseU (uEnc n ++ rest) = some (n, rest) := by
  induction n with
  | zero => simp [uEnc, parseU]
  | succ m ih =>
    simp only [uEnc, List.replicate_succ, List.cons_append, List.append_assoc,
      List.singleton_append, List.nil_append] at ih ⊢
    simp [parseU, ih]

theorem takeN_append (l rest : List Char) :
    takeN l.length (l ++ rest) = some (l, rest) := by
  induction l with
  | nil => simp [takeN]
  | cons c t ih => simp [takeN, ih]

theorem String.mk_data (s : String) : String.mk s.data = s := rfl

theorem one_le_sizeV (v : Value) : 1 ≤ sizeV v := by
  cases v <;> simp [sizeV]

mutual

theorem parseV_encodeV (v : Value) (fuel : Nat) (rest : List Char)
    (h : sizeV v ≤ fuel) : parseV fuel (encodeV v ++ rest) = some (v, rest) :=
  match v, fuel, h with
  | v, 0, h => by
    have h1 : 1 ≤ sizeV v := one_le_sizeV v
    omega
  | .vstr s, fuel + 1, h => by
    have tk : takeN s.length (s.data ++ rest) = some (s.data, rest) := takeN_append s.data rest
    simp [encodeV, parseV, parseU_uEnc, tk, String.mk_data]
  | .vnum (.ofNat m), fuel + 1, h => by
    simp [encodeV, parseV, parseU_uEnc]
  | .vnum (.negSucc m), fuel + 1, h => by
    simp [encodeV, parseV, parseU_uEnc]
  | .vbool b, fuel + 1, h => by
    cases b <;> simp [encodeV, parseV]
  | .varr xs, fuel + 1, h => by
    have hx : sizeVL xs ≤ fuel := by
      simp only [sizeV] at h; omega
    have e1 := parseVL_encodeVL xs fuel rest hx
    simp [encodeV, parseV, parseU_uEnc, e1]
  | .vobj fs, fuel + 1, h => by
    have hx : sizeF fs ≤ fuel := by
      simp only [sizeV] at h; omega
    have e1 := parseF_encodeF fs fuel rest hx
    simp [encodeV, parseV, parseU_uEnc, e1]

theorem parseVL_encodeVL (xs : VList) (fuel : Nat) (rest : List Char)
    (h : sizeVL xs ≤ fuel) :
    parseVL fuel (lenVL xs) (encodeVL xs ++ rest) = some (xs, rest) :=
  match xs, fuel, h with
  | .nil, fuel, h => by simp [encodeVL, lenVL, parseVL]
  | .cons v t, 0, h => by
    have h1 : 1 ≤ sizeV v := one_le_sizeV v
    simp only [sizeVL] at h
    omega
  | .cons v t, fuel + 1, h => by
    have h1 : sizeV v ≤ fuel := by
      have := one_le_sizeV v
      simp only [sizeVL] at h; omega
    have h2 : sizeVL t ≤ fuel := by simp only [sizeVL] at h; omega
    have e1 := parseV_encodeV v fuel (encodeVL t ++ rest) h1
    have e2 := parseVL_encodeVL t fuel rest h2
    simp only [encodeVL, lenVL, parseVL, List.append_assoc] at e1 e2 ⊢
    simp [e1, e2]

theorem parseF_encodeF (fs : Fields) (fuel : Nat) (rest : List Char)
    (h : sizeF fs ≤ fuel) :
    parseF fuel (lenF fs) (encodeF fs ++ rest) = some (fs, rest) :=
  match fs, fuel, h with
  | .nil, fuel, h => by simp [encodeF, lenF, parseF]
  | .cons k v t, 0, h => by
    have h1 : 1 ≤ sizeV v := one_le_sizeV v
    simp only [sizeF] at h
    omega
  | .cons k v t, fuel + 1, h => by
    have h1 : sizeV v ≤ fuel := by
      have := one_le_sizeV v
      simp only [sizeF] at h; omega
    have h2 : sizeF t ≤ fuel := by simp only [sizeF] at h; omega
    have e1 := parseV_encodeV v fuel (encodeF t ++ rest) h1
    have e2 := parseF_encodeF t fuel rest h2
    have tk : takeN k.length (k.data ++ (encodeV v ++ (encodeF t ++ rest))) =
        some (k.data, encodeV v ++ (encodeF t ++ rest)) :=
      takeN_append k.data (encodeV v ++ (encodeF t ++ rest))
    simp only [encodeF, lenF, parseF, List.append_assoc] at e1 e2 ⊢
    simp [parseU_uEnc, tk, e1, e2, String.mk_data]

end

mutual

theorem sizeV_le_length (v : Value) : sizeV v ≤ (encodeV v).length :=
  match v with
  | .vstr s => by simp [sizeV, encodeV]
  | .vnum (.ofNat m) => by simp [sizeV, encodeV]
  | .vnum (.negSucc m) => by simp [sizeV, encodeV]
  | .vbool b => by simp [sizeV, encodeV]
  | .varr xs => by
    have hx := sizeVL_le_length xs
    simp only [sizeV, encodeV, uEnc, List.length_cons, List.length_append,
      List.length_replicate, List.length_singleton]
    omega
  | .vobj fs => by
    have hx := sizeF_le_length fs
    simp only [sizeV, encodeV, uEnc, List.length_cons, List.length_append,
      List.length_replicate, List.length_singleton]
    omega

theorem sizeVL_le_length (xs : VList) : sizeVL xs ≤ lenVL xs + (encodeVL xs).length :=
  match xs with
  | .nil => by simp [sizeVL]
  | .cons v t => by
    have h1 := sizeV_le_length v
    have h2 := sizeVL_le_length t
    simp only [sizeVL, lenVL, encodeVL, List.length_append]
    omega

theorem sizeF_le_length (fs : Fields) : sizeF fs ≤ lenF fs + (encodeF fs).length :=
  match fs with
  | .nil => by simp [sizeF]
  | .cons k v t => by
    have h1 := sizeV_le_length v
    have h2 := sizeF_le_length t
    simp only [sizeF, lenF, encodeF, uEnc, List.length_append, List.length_replicate,
      List.length_cons, List.length_singleton]
    omega

end

theorem decode_encode (v : Value) : decode (encode v) = some v := by
  have hs : sizeV v ≤ (encodeV v).length + 1 :=
    Nat.le_succ_of_le (sizeV_le_length v)
  have hp := parseV_encodeV v ((encodeV v).length + 1) [] hs
  simp only [List.append_nil] at hp
  simp [decode, encode, hp]

/-! ## Merge engine lemmas -/

theorem lookupF_fAppend (k : String) (a b : Fields) :
    lookupF k (fAppend a b) =
      match lookupF k a with
      | some v => some v
      | none => lookupF k b :=
  match a with
  | .nil => by simp [fAppend, lookupF]
  | .cons k' v t => by
    have ih := lookupF_fAppend k t b
    simp only [fAppend, lookupF]
    by_cases h : k' = k <;> simp [h, ih]

theorem lookupF_mergeFields (k : String) (fs gs : Fields) :
    lookupF k (mergeFields fs gs) =
      match lookupF k fs with
      | some v =>
        match lookupF k gs with
        | some w => some (deepMerge v w)
        | none => some v
      | none => none :=
  match fs with
  | .nil => by simp [mergeFields, lookupF]
  | .cons k' v t => by
    have ih := lookupF_mergeFields k t gs
    cases hg : lookupF k' gs <;>
      · simp only [mergeFields, hg, lookupF]
        by_cases h : k' = k <;> simp_all [h]

theorem lookupF_restFields (k : String) (gs fs : Fields) (h : lookupF k fs = none) :
    lookupF k (restFields gs fs) = lookupF k gs :=
  match gs with
  | .nil => by simp [restFields]
  | .cons k' v t => by
    have ih := lookupF_restFields k t fs h
    by_cases hk : k' = k
    · subst hk
      simp [restFields, h, lookupF, ih]
    · cases hf : lookupF k' fs <;> simp [restFields, hf, lookupF, hk, ih]

theorem lookupF_dm (k : String) (fs gs : Fields) :
    lookupF k (fAppend (mergeFields fs gs) (restFields gs fs)) =
      match lookupF k fs with
      | some v =>
        match lookupF k gs with
        | some w => some (deepMerge v w)
        | none => some v
      | none => lookupF k gs := by
  rw [lookupF_fAppend, lookupF_mergeFields]
  cases hf : lookupF k fs with
  | none => simp [lookupF_restFields k gs fs hf]
  | some v => cases hg : lookupF k gs <;> simp

theorem deepMerge_of_not_obj (hi lo : Value) (h : lo.isObjB = false) :
    deepMerge hi lo = hi := by
  cases hi <;> cases lo <;> simp_all [deepMerge, Value.isObjB]

theorem deepMerge_of_hi_not_obj (hi lo : Value) (h : hi.isObjB = false) :
    deepMerge hi lo = hi := by
  cases hi <;> cases lo <;> simp_all [deepMerge, Value.isObjB]

theorem isObjB_deepMerge (u w : Value) (h : u.isObjB = true) :
    (deepMerge u w).isObjB = true := by
  cases u <;> cases w <;> simp_all [deepMerge, Value.isObjB]

theorem getPath_not_obj (v : Value) (k : String) (rest : List String)
    (h : v.isObjB = false) : getPath v (k :: rest) = none := by
  cases v <;> simp_all [getPath, Value.isObjB]

theorem getPath_deepMerge_left (q : List String) (hi lo v : Value)
    (h : getPath hi q = some v) (hv : v.isObjB = false) :
    getPath (deepMerge hi lo) q = some v := by
  induction q generalizing hi lo v with
  | nil =>
    simp only [getPath, Option.some_inj] at h
    subst h
    rw [deepMerge_of_hi_not_obj _ _ hv]
    simp [getPath]
  | cons k rest ih =>
    cases hi with
    | vobj fs =>
      simp only [getPath] at h
      cases hl : lookupF k fs with
      | none => simp [hl] at h
      | some u =>
        rw [hl] at h
        replace h : getPath u rest = some v := h
        by_cases hlo : lo.isObjB = true
        · cases lo with
          | vobj gs =>
            simp only [deepMerge, getPath, lookupF_dm, hl]
            cases hg : lookupF k gs with
            | none => simpa using h
            | some w => simpa using ih u w v h hv
          | vstr s => simp [Value.isObjB] at hlo
          | vnum n => simp [Value.isObjB] at hlo
          | vbool b => simp [Value.isObjB] at hlo
          | varr xs => simp [Value.isObjB] at hlo
        · rw [deepMerge_of_not_obj _ _ (by simpa using hlo)]
          simp [getPath, hl, h]
    | vstr s => simp [getPath] at h
    | vnum n => simp [getPath] at h
    | vbool b => simp [getPath] at h
    | varr xs => simp [getPath] at h

theorem objAlong_iff (o : Value) (q : List String) :
    objAlong o q = true ↔
      ∀ i, i < q.length → ∀ w, getPath o (q.take i) = some w → w.isObjB = true := by
  simp only [objAlong, List.all_eq_true, List.mem_range]
  constructor
  · intro h i hi w hw
    have := h i hi
    rw [hw] at this
    exact this
  · intro h i hi
    cases hw : getPath o (q.take i) with
    | none => simp
    | some w => exact h i hi w hw

theorem objAlong_take (o : Value) (q : List String) (i : Nat)
    (h : objAlong o q = true) : objAlong o (q.take i) = true := by
  rw [objAlong_iff] at h ⊢
  intro j hj w hw
  rw [List.length_take] at hj
  have hj2 : j < q.length := lt_of_lt_of_le hj (min_le_right _ _)
  have hji : j ≤ i := le_of_lt (lt_of_lt_of_le hj (min_le_left _ _))
  rw [List.take_take, min_eq_left hji] at hw
  exact h j hj2 w hw

theorem objAlong_shift (fs : Fields) (k : String) (rest : List String) (u : Value)
    (ha : objAlong (.vobj fs) (k :: rest) = true) (hl : lookupF k fs = some u) :
    objAlong u rest = true := by
  rw [objAlong_iff] at ha ⊢
  intro i hi w hw
  have h2 : getPath (.vobj fs) ((k :: rest).take (i + 1)) = some w := by
    simp [List.take_succ_cons, getPath, hl, hw]
  exact ha (i + 1) (by simp; omega) w h2

theorem objAlong_obj (o : Value) (q : List String) (hq : q ≠ [])
    (ha : objAlong o q = true) : o.isObjB = true := by
  rw [objAlong_iff] at ha
  have := ha 0 (by cases q with
    | nil => exact absurd rfl hq
    | cons a t => simp) o (by simp [getPath])
  exact this

theorem getPath_deepMerge_absent (q : List String) (hi lo : Value)
    (ha : objAlong hi q = true) (h : getPath hi q = none) :
    getPath (deepMerge hi lo) q = getPath lo q := by
  induction q generalizing hi lo with
  | nil => simp [getPath] at h
  | cons k rest ih =>
    have hobj : hi.isObjB = true := objAlong_obj hi (k :: rest) (by simp) ha
    cases hi with
    | vobj fs =>
      by_cases hlo : lo.isObjB = true
      · cases lo with
        | vobj gs =>
          simp only [deepMerge, getPath, lookupF_dm]
          simp only [getPath] at h
          cases hf : lookupF k fs with
          | none =>
            cases hg : lookupF k gs <;> simp [getPath]
          | some u =>
            rw [hf] at h
            replace h : getPath u rest = none := h
            have hs : objAlong u rest = true := objAlong_shift fs k rest u ha hf
            cases hg : lookupF k gs with
            | none => simp [h]
            | some w => simpa using ih u w hs h
        | vstr s => simp [Value.isObjB] at hlo
        | vnum n => simp [Value.isObjB] at hlo
        | vbool b => simp [Value.isObjB] at hlo
        | varr xs => simp [Value.isObjB] at hlo
      · rw [deepMerge_of_not_obj _ _ (by simpa using hlo)]
        rw [h, getPath_not_obj lo k rest (by simpa using hlo)]
    | vstr s => simp [Value.isObjB] at hobj
    | vnum n => simp [Value.isObjB] at hobj
    | vbool b => simp [Value.isObjB] at hobj
    | varr xs => simp [Value.isObjB] at hobj

theorem getPath_deepMerge_present (q : List String) (hi lo u : Value)
    (h : getPath hi q = some u) :
    getPath (deepMerge hi lo) q = some u ∨
      ∃ w, getPath lo q = some w ∧ getPath (deepMerge hi lo) q = some (deepMerge u w) := by
  induction q generalizing hi lo u with
  | nil =>
    simp only [getPath, Option.some_inj] at h
    subst h
    right
    exact ⟨lo, by simp [getPath], by simp [getPath]⟩
  | cons k rest ih =>
    cases hi with
    | vobj fs =>
      simp only [getPath] at h
      cases hf : lookupF k fs with
      | none => simp [hf] at h
      | some u1 =>
        rw [hf] at h
        replace h : getPath u1 rest = some u := h
        by_cases hlo : lo.isObjB = true
        · cases lo with
          | vobj gs =>
            simp only [deepMerge, getPath, lookupF_dm, hf]
            cases hg : lookupF k gs with
            | none => left; simpa using h
            | some w1 =>
              rcases ih u1 w1 u h with hL | ⟨w2, hw2, hL⟩
              · left; simpa using hL
              · right; exact ⟨w2, by simp [getPath, hg, hw2], by simpa using hL⟩
          | vstr s => simp [Value.isObjB] at hlo
          | vnum n => simp [Value.isObjB] at hlo
          | vbool b => simp [Value.isObjB] at hlo
          | varr xs => simp [Value.isObjB] at hlo
        · left
          rw [deepMerge_of_not_obj _ _ (by simpa using hlo)]
          simp [getPath, hf, h]
    | vstr s => simp [getPath] at h
    | vnum n => simp [getPath] at h
    | vbool b => simp [getPath] at h
    | varr xs => simp [getPath] at h

theorem objAlong_deepMerge (q : List String) (hi lo : Value)
    (h1 : objAlong hi q = true) (h2 : objAlong lo q = true) :
    objAlong (deepMerge hi lo) q = true := by
  rw [objAlong_iff]
  intro i hi' w hw
  cases hp : getPath hi (q.take i) with
  | some u =>
    rcases getPath_deepMerge_present (q.take i) hi lo u hp with hL | ⟨w2, hw2, hL⟩
    · rw [hL] at hw
      cases hw
      exact (objAlong_iff hi q).mp h1 i hi' _ hp
    · rw [hL] at hw
      cases hw
      exact isObjB_deepMerge _ _ ((objAlong_iff hi q).mp h1 i hi' _ hp)
  | none =>
    have hTake : objAlong hi (q.take i) = true := objAlong_take hi q i h1
    rw [getPath_deepMerge_absent (q.take i) hi lo hTake hp] at hw
    exact (objAlong_iff lo q).mp h2 i hi' w hw

/-! ## Write-filter lemmas -/

/-- Whether a field list has an entry with the given key. -/
def hasKey (k : String) (fs : Fields) : Bool := (lookupF k fs).isSome

/-- Whether the keys of a field list are pairwise distinct. -/
def nodupKeysB : Fields → Bool
  | .nil => true
  | .cons k _ t => !hasKey k t && nodupKeysB t

mutual

/-- Well-formedness of a configuration tree: every object has pairwise
distinct field keys (as decoded structured text always does). -/
def wfV : Value → Bool
  | .vstr _ => true
  | .vnum _ => true
  | .vbool _ => true
  | .varr xs => wfVL xs
  | .vobj fs => nodupKeysB fs && wfF fs

/-- Well-formedness of array elements. -/
def wfVL : VList → Bool
  | .nil => true
  | .cons v t => wfV v && wfVL t

/-- Well-formedness of field values. -/
def wfF : Fields → Bool
  | .nil => true
  | .cons _ v t => wfV v && wfF t

end

theorem wfF_lookup (k : String) (cs : Fields) (v : Value)
    (h : wfF cs = true) (hl : lookupF k cs = some v) : wfV v = true :=
  match cs with
  | .nil => by simp [lookupF] at hl
  | .cons k' w t => by
    simp only [wfF, Bool.and_eq_true] at h
    simp only [lookupF] at hl
    by_cases hk : k' = k
    · rw [if_pos hk] at hl
      cases hl
      exact h.1
    · rw [if_neg hk] at hl
      exact wfF_lookup k t v h.2 hl

theorem lookupF_subFields_cons_ne (k k' : String) (v : Value) (t os : Fields)
    (hk : k' ≠ k) :
    lookupF k (subFields (.cons k' v t) os) = lookupF k (subFields t os) := by
  cases ho : lookupF k' os with
  | none => simp [subFields, ho, lookupF, hk]
  | some u =>
    cases u with
    | vobj osub => simp [subFields, ho, lookupF, hk]
    | varr ovs =>
      cases v with
      | varr cvs =>
        simp only [subFields, ho]
        cases hd : diffVL cvs ovs <;> simp [lookupF, hk]
      | vstr s => simp [subFields, ho]
      | vnum n => simp [subFields, ho]
      | vbool b => simp [subFields, ho]
      | vobj fs2 => simp [subFields, ho]
    | vstr s => simp [subFields, ho]
    | vnum n => simp [subFields, ho]
    | vbool b => simp [subFields, ho]

theorem lookupF_subFields_none (k : String) (cs os : Fields)
    (h : lookupF k os = none) :
    lookupF k (subFields cs os) = lookupF k cs :=
  match cs with
  | .nil => by simp [subFields]
  | .cons k' v t => by
    have ih := lookupF_subFields_none k t os h
    by_cases hk : k' = k
    · subst hk
      simp [subFields, h, lookupF]
    · rw [lookupF_subFields_cons_ne k k' v t os hk, ih]
      simp [lookupF, hk]

theorem lookupF_subFields_obj (k : String) (cs os osub : Fields)
    (h : lookupF k os = some (.vobj osub)) :
    lookupF k (subFields cs os) =
      (lookupF k cs).map fun v => subtractOverride v (.vobj osub) :=
  match cs with
  | .nil => by simp [subFields, lookupF]
  | .cons k' v t => by
    have ih := lookupF_subFields_obj k t os osub h
    by_cases hk : k' = k
    · subst hk
      simp [subFields, h, lookupF]
    · rw [lookupF_subFields_cons_ne k k' v t os hk, ih]
      simp [lookupF, hk]

theorem lookupF_subFields_keyNone (k : String) (cs os : Fields)
    (h : lookupF k cs = none) :
    lookupF k (subFields cs os) = none :=
  match cs with
  | .nil => by simp [subFields, lookupF]
  | .cons k' v t => by
    simp only [lookupF] at h
    by_cases hk : k' = k
    · rw [if_pos hk] at h
      exact absurd h (by simp)
    · rw [if_neg hk] at h
      rw [lookupF_subFields_cons_ne k k' v t os hk]
      exact lookupF_subFields_keyNone k t os h

theorem lookupF_subFields_arrfield (k : String) (cs os : Fields) (cvs ovs : VList)
    (hc : lookupF k cs = some (.varr cvs)) (ho : lookupF k os = some (.varr ovs))
    (hnd : nodupKeysB cs = true) :
    lookupF k (subFields cs os) =
      match diffVL cvs ovs with
      | .nil => none
      | d => some (.varr d) :=
  match cs with
  | .nil => by simp [lookupF] at hc
  | .cons k' v t => by
    simp only [nodupKeysB, Bool.and_eq_true] at hnd
    by_cases hk : k' = k
    · subst hk
      have hc2 : v = Value.varr cvs := by simpa [lookupF] using hc
      subst hc2
      have htail : lookupF k' t = none := by
        have h2 := hnd.1
        simp only [hasKey, Bool.not_eq_true'] at h2
        exact Option.not_isSome_iff_eq_none.mp (by simp [h2])
      simp only [subFields, ho]
      cases hd : diffVL cvs ovs with
      | nil =>
        simp only [hd]
        exact lookupF_subFields_keyNone k' t os htail
      | cons d dt => simp [hd, lookupF]
    · simp only [lookupF, if_neg hk] at hc
      rw [lookupF_subFields_cons_ne k k' v t os hk]
      exact lookupF_subFields_arrfield k t os cvs ovs hc ho hnd.2

theorem objAlong_second (os : Fields) (k : String) (rest : List String) (u : Value)
    (ha : objAlong (.vobj os) (k :: rest) = true) (hl : lookupF k os = some u)
    (hrest : rest ≠ []) : u.isObjB = true := by
  rw [objAlong_iff] at ha
  apply ha 1 (by cases rest with
    | nil => exact absurd rfl hrest
    | cons r rs => simp) u
  simp [List.take_succ_cons, getPath, hl]

theorem getPath_subtract_keep (q : List String) (hq : q ≠ []) (c o : Value)
    (ha : objAlong o q = true) (h : getPath o q = none) :
    getPath (subtractOverride c o) q = getPath c q := by
  induction q generalizing c o with
  | nil => exact absurd rfl hq
  | cons k rest ih =>
    have hobj : o.isObjB = true := objAlong_obj o (k :: rest) (by simp) ha
    cases o with
    | vobj os =>
      cases c with
      | vobj cs =>
        simp only [subtractOverride, getPath] at h ⊢
        cases ho : lookupF k os with
        | none =>
          rw [lookupF_subFields_none k cs os ho]
        | some u =>
          rw [ho] at h
          replace h : getPath u rest = none := h
          cases u with
          | vobj osub =>
            rw [lookupF_subFields_obj k cs os osub ho]
            cases hc : lookupF k cs with
            | none => simp
            | some v =>
              cases rest with
              | nil => simp [getPath] at h
              | cons r rs =>
                have hs : objAlong (.vobj osub) (r :: rs) = true :=
                  objAlong_shift os k (r :: rs) _ ha ho
                simpa using ih (by simp) v (.vobj osub) hs h
          | vstr s =>
            cases rest with
            | nil => simp [getPath] at h
            | cons r rs =>
              have := objAlong_second os k (r :: rs) _ ha ho (by simp)
              simp [Value.isObjB] at this
          | vnum n =>
            cases rest with
            | nil => simp [getPath] at h
            | cons r rs =>
              have := objAlong_second os k (r :: rs) _ ha ho (by simp)
              simp [Value.isObjB] at this
          | vbool b =>
            cases rest with
            | nil => simp [getPath] at h
            | cons r rs =>
              have := objAlong_second os k (r :: rs) _ ha ho (by simp)
              simp [Value.isObjB] at this
          | varr xs =>
            cases rest with
            | nil => simp [getPath] at h
            | cons r rs =>
              have := objAlong_second os k (r :: rs) _ ha ho (by simp)
              simp [Value.isObjB] at this
      | vstr s => simp [subtractOverride]
      | vnum n => simp [subtractOverride]
      | vbool b => simp [subtractOverride]
      | varr xs => simp [subtractOverride]
    | vstr s => simp [Value.isObjB] at hobj
    | vnum n => simp [Value.isObjB] at hobj
    | vbool b => simp [Value.isObjB] at hobj
    | varr xs => simp [Value.isObjB] at hobj

theorem getPath_subtract_arr (q : List String) (hq : q ≠ []) (c o : Value)
    (cvs ovs : VList) (hwf : wfV c = true)
    (hc : getPath c q = some (.varr cvs)) (ho : getPath o q = some (.varr ovs)) :
    getPath (subtractOverride c o) q =
      match diffVL cvs ovs with
      | .nil => none
      | d => some (.varr d) := by
  induction q generalizing c o with
  | nil => exact absurd rfl hq
  | cons k rest ih =>
    cases c with
    | vobj cs =>
      cases o with
      | vobj os =>
        simp only [subtractOverride, getPath] at hc ho ⊢
        cases hlc : lookupF k cs with
        | none => simp [hlc] at hc
        | some v =>
          rw [hlc] at hc
          replace hc : getPath v rest = some (.varr cvs) := hc
          cases hlo : lookupF k os with
          | none => simp [hlo] at ho
          | some u =>
            rw [hlo] at ho
            replace ho : getPath u rest = some (.varr ovs) := ho
            simp only [wfV, Bool.and_eq_true] at hwf
            cases rest with
            | nil =>
              simp only [getPath, Option.some_inj] at hc ho
              subst hc
              subst ho
              rw [lookupF_subFields_arrfield k cs os cvs ovs hlc hlo hwf.1]
              cases hd : diffVL cvs ovs <;> simp [getPath]
            | cons r rs =>
              cases u with
              | vobj osub =>
                rw [lookupF_subFields_obj k cs os osub hlo, hlc]
                have hwv : wfV v = true := wfF_lookup k cs v hwf.2 hlc
                simpa using ih (by simp) v (.vobj osub) hwv hc ho
              | vstr s => simp [getPath] at ho
              | vnum n => simp [getPath] at ho
              | vbool b => simp [getPath] at ho
              | varr xs => simp [getPath] at ho
      | vstr s => simp [getPath] at ho
      | vnum n => simp [getPath] at ho
      | vbool b => simp [getPath] at ho
      | varr xs => simp [getPath] at ho
    | vstr s => simp [getPath] at hc
    | vnum n => simp [getPath] at hc
    | vbool b => simp [getPath] at hc
    | varr xs => simp [getPath] at hc

/-! ## Store lemmas -/

theorem wsOverrideLoc_ne_baseLoc (cs : ConfigStore) : cs.wsOverrideLoc ≠ cs.baseLoc := by
  simp only [ConfigStore.wsOverrideLoc, ConfigStore.baseLoc, ne_eq, Loc.mk.injEq]
  intro h
  exact absurd h.2 (by decide)

theorem homeOverrideLoc_ne_baseLoc (cs : ConfigStore) : cs.homeOverrideLoc ≠ cs.baseLoc := by
  simp only [ConfigStore.homeOverrideLoc, ConfigStore.baseLoc, ne_eq, Loc.mk.injEq]
  intro h
  exact absurd h.2 (by decide)

theorem readRaw_encode (st : Storage) (cs : ConfigStore) (P : Value)
    (h : st cs.baseLoc = some (encode P)) : ConfigStore.readRaw st cs = .ok P := by
  simp [ConfigStore.readRaw, h, decode_encode]

theorem readRaw_missing (st : Storage) (cs : ConfigStore)
    (h : st cs.baseLoc = none) :
    ConfigStore.readRaw st cs = .error (.readError cs.baseLoc.path) := by
  simp [ConfigStore.readRaw, h]

theorem resolveOverride_both (st : Storage) (cs : ConfigStore) (W H : Value)
    (hws : st cs.wsOverrideLoc = some (encode W))
    (hhome : st cs.homeOverrideLoc = some (encode H)) :
    ConfigStore.resolveOverride st cs = .ok (deepMerge W H) := by
  simp [ConfigStore.resolveOverride, ConfigStore.readOverrideLayer, hws, hhome, decode_encode]

theorem resolveOverride_ws (st : Storage) (cs : ConfigStore) (W : Value)
    (hws : st cs.wsOverrideLoc = some (encode W))
    (hhome : st cs.homeOverrideLoc = none) :
    ConfigStore.resolveOverride st cs = .ok W := by
  simp [ConfigStore.resolveOverride, ConfigStore.readOverrideLayer, hws, hhome, decode_encode]

theorem resolveOverride_home (st : Storage) (cs : ConfigStore) (H : Value)
    (hws : st cs.wsOverrideLoc = none)
    (hhome : st cs.homeOverrideLoc = some (encode H)) :
    ConfigStore.resolveOverride st cs = .ok H := by
  simp [ConfigStore.resolveOverride, ConfigStore.readOverrideLayer, hws, hhome, decode_encode]

theorem read_fresh_plain (st : Storage) (cs : ConfigStore) (P : Value)
    (h : st cs.baseLoc = some (encode P)) :
    ConfigStore.read st cs .plain false =
      .ok (deepMerge P defaultConfig, cs.cacheSet .plain (deepMerge P defaultConfig)) := by
  simp [ConfigStore.read, ConfigStore.readFresh, readRaw_encode st cs P h]

theorem read_fresh_override (st : Storage) (cs : ConfigStore) (P OV : Value)
    (h : st cs.baseLoc = some (encode P))
    (hov : ConfigStore.resolveOverride st cs = .ok OV) :
    ConfigStore.read st cs .withOverride false =
      .ok (deepMerge (deepMerge OV P) defaultConfig,
           cs.cacheSet .withOverride (deepMerge (deepMerge OV P) defaultConfig)) := by
  simp [ConfigStore.read, ConfigStore.readFresh, readRaw_encode st cs P h, hov]

/-! ## Claims about the Config Store -/

/-- C5: for every persisted base PartialConfig P, readRaw returns exactly P,
with no defaults injected for absent fields and no override-file content
applied (the storage is arbitrary away from the base location, so any
override files present are ignored). -/
theorem C5_readRaw_exact (st : Storage) (cs : ConfigStore) (P : Value)
    (h : st cs.baseLoc = some (encode P)) :
    ConfigStore.readRaw st cs = .ok P :=
  readRaw_encode st cs P h

/-- C6: the Raw Config Codec round-trips: decode after encode is the
identity; encode after decode is the identity on every valid (codec-produced)
text; and readRaw after persisting P via the codec returns exactly P. -/
theorem C6_codec_roundtrip :
    (∀ P : Value, decode (encode P) = some P) ∧
    (∀ x : String, (∃ P, encode P = x) → ∃ Q, decode x = some Q ∧ encode Q = x) ∧
    (∀ (st : Storage) (cs : ConfigStore) (P : Value),
      st cs.baseLoc = some (encode P) → ConfigStore.readRaw st cs = .ok P) := by
  refine ⟨decode_encode, ?_, fun st cs P h => readRaw_encode st cs P h⟩
  rintro x ⟨P, rfl⟩
  exact ⟨P, decode_encode P, rfl⟩

/-- C7: create on an empty workspace succeeds, persists at the base config
location a file whose decoded content equals the Default Config Provider's
schema-complete output, returns that config, and a following readRaw returns
the same value. -/
theorem C7_create (st : Storage) (cs : ConfigStore) (hempty : ∀ l, st l = none) :
    (ConfigStore.create st cs).1 = defaultConfig ∧
    (ConfigStore.create st cs).2 cs.baseLoc = some (encode defaultConfig) ∧
    decode (encode defaultConfig) = some defaultConfig ∧
    ConfigStore.readRaw (ConfigStore.create st cs).2 cs = .ok defaultConfig := by
  refine ⟨rfl, by simp [ConfigStore.create], decode_encode _, ?_⟩
  apply readRaw_encode
  simp [ConfigStore.create]

/-- C8: whenever readRaw fails because the base config file is missing, the
returned error is a ReadError whose message contains the concrete file path
that was attempted. -/
theorem C8_readRaw_error_path (st : Storage) (cs : ConfigStore)
    (h : st cs.baseLoc = none) :
    ConfigStore.readRaw st cs = .error (.readError cs.baseLoc.path) ∧
    ∃ pre post, (CsError.readError cs.baseLoc.path).message =
      pre ++ cs.baseLoc.path ++ post := by
  refine ⟨readRaw_missing st cs h, "Failed to read from ", "", ?_⟩
  simp [CsError.message]

/-- C3: after a successful non-cached read in default mode, even if the base
config file is then deleted (indeed for an arbitrary later storage state),
readRaw fails with a ReadError naming the base path while a cached read in
default mode still succeeds with the previously cached resolved config,
without touching storage. -/
theorem C3_cache_staleness (st st2 : Storage) (cs cs' : ConfigStore) (v : Value)
    (h : ConfigStore.read st cs .plain false = .ok (v, cs'))
    (hdel : st2 cs'.baseLoc = none) :
    ConfigStore.readRaw st2 cs' = .error (.readError cs'.baseLoc.path) ∧
    ConfigStore.read st2 cs' .plain true = .ok (v, cs') := by
  refine ⟨readRaw_missing st2 cs' hdel, ?_⟩
  simp only [ConfigStore.read, Bool.false_eq_true, if_false, ConfigStore.readFresh] at h
  cases hr : ConfigStore.readRaw st cs with
  | error e => rw [hr] at h; simp at h
  | ok raw =>
    rw [hr] at h
    simp only [Except.ok.injEq, Prod.mk.injEq] at h
    obtain ⟨hv, hcs⟩ := h
    subst hcs
    simp [ConfigStore.read, ConfigStore.cacheGet, ConfigStore.cacheSet, hv]

/-- C4: for every persisted base PartialConfig P, a default-mode read returns
a resolved config in which every (leaf) field present in P keeps its raw
value, and every field absent from P (with every present proper prefix an
object node, as in any schema-shaped partial config) equals the Default
Config Provider's value for that field. -/
theorem C4_read_default (st : Storage) (cs cs' : ConfigStore) (P R : Value)
    (hst : st cs.baseLoc = some (encode P))
    (h : ConfigStore.read st cs .plain false = .ok (R, cs')) :
    (∀ q v, getPath P q = some v → v.isObjB = false → getPath R q = some v) ∧
    (∀ q, objAlong P q = true → getPath P q = none →
      getPath R q = getPath defaultConfig q) := by
  rw [read_fresh_plain st cs P hst] at h
  simp only [Except.ok.injEq, Prod.mk.injEq] at h
  obtain ⟨hv, -⟩ := h
  subst hv
  exact ⟨fun q v hv hleaf => getPath_deepMerge_left q P defaultConfig v hv hleaf,
         fun q ha hn => getPath_deepMerge_absent q P defaultConfig ha hn⟩

/-- C2: override precedence.  With a workspace override W, home override H
and base raw config P persisted, an override-mode read resolves to the
four-layer merge; a (leaf) field defined by W wins; after the workspace
override file is removed the same call reports H's value for every (leaf)
field H defines; in general the highest-precedence layer defining a field
wins, in the order workspace override, home override, base raw value, schema
default. -/
theorem C2_override_precedence (st st' : Storage) (cs : ConfigStore)
    (W H P : Value) (q : List String)
    (hws : st cs.wsOverrideLoc = some (encode W))
    (hhome : st cs.homeOverrideLoc = some (encode H))
    (hbase : st cs.baseLoc = some (encode P))
    (hws' : st' cs.wsOverrideLoc = none)
    (hhome' : st' cs.homeOverrideLoc = some (encode H))
    (hbase' : st' cs.baseLoc = some (encode P)) :
    (∃ cs1, ConfigStore.read st cs .withOverride false =
      .ok (deepMerge (deepMerge (deepMerge W H) P) defaultConfig, cs1)) ∧
    (∃ cs2, ConfigStore.read st' cs .withOverride false =
      .ok (deepMerge (deepMerge H P) defaultConfig, cs2)) ∧
    (∀ A, getPath W q = some A → A.isObjB = false →
      getPath (deepMerge (deepMerge (deepMerge W H) P) defaultConfig) q = some A) ∧
    (∀ B, getPath H q = some B → B.isObjB = false →
      getPath (deepMerge (deepMerge H P) defaultConfig) q = some B) ∧
    (∀ C, objAlong W q = true → getPath W q = none →
      objAlong H q = true → getPath H q = none →
      getPath P q = some C → C.isObjB = false →
      getPath (deepMerge (deepMerge (deepMerge W H) P) defaultConfig) q = some C) ∧
    (objAlong W q = true → getPath W q = none →
      objAlong H q = true → getPath H q = none →
      objAlong P q = true → getPath P q = none →
      getPath (deepMerge (deepMerge (deepMerge W H) P) defaultConfig) q =
        getPath defaultConfig q) := by
  refine ⟨⟨_, read_fresh_override st cs P (deepMerge W H) hbase
            (resolveOverride_both st cs W H hws hhome)⟩,
          ⟨_, read_fresh_override st' cs P H hbase'
            (resolveOverride_home st' cs H hws' hhome')⟩,
          ?_, ?_, ?_, ?_⟩
  · intro A hA hleaf
    exact getPath_deepMerge_left q _ _ A
      (getPath_deepMerge_left q _ _ A
        (getPath_deepMerge_left q W H A hA hleaf) hleaf) hleaf
  · intro B hB hleaf
    exact getPath_deepMerge_left q _ _ B
      (getPath_deepMerge_left q H P B hB hleaf) hleaf
  · intro C haW hnW haH hnH hP hleaf
    have h1 : getPath (deepMerge W H) q = none := by
      rw [getPath_deepMerge_absent q W H haW hnW]
      exact hnH
    have h2 : objAlong (deepMerge W H) q = true := objAlong_deepMerge q W H haW haH
    have h3 : getPath (deepMerge (deepMerge W H) P) q = some C := by
      rw [getPath_deepMerge_absent q (deepMerge W H) P h2 h1]
      exact hP
    exact getPath_deepMerge_left q _ _ C h3 hleaf
  · intro haW hnW haH hnH haP hnP
    have h1 : getPath (deepMerge W H) q = none := by
      rw [getPath_deepMerge_absent q W H haW hnW]
      exact hnH
    have h2 : objAlong (deepMerge W H) q = true := objAlong_deepMerge q W H haW haH
    have h3 : getPath (deepMerge (deepMerge W H) P) q = none := by
      rw [getPath_deepMerge_absent q (deepMerge W H) P h2 h1]
      exact hnP
    have h4 : objAlong (deepMerge (deepMerge W H) P) q = true :=
      objAlong_deepMerge q _ P h2 haP
    exact getPath_deepMerge_absent q _ defaultConfig h4 h3

/-! ## Claim C1: write filtering -/

/-- A vault entry as used in the ConfigStore test suite. -/
def vaultNamed (s : String) : Value :=
  .vobj (.cons "fsPath" (.vstr s) (.cons "name" (.vstr s) .nil))

/-- C1 (amended): with an existing workspace-override file defining the field
path workspace.vaults as an array, write persists a base file whose
workspace.vaults is the config's vault array minus the override's vault
entries - absent exactly when the residual is empty (in particular when the
config's vaults equal the override's vaults, as in the specified scenario) -
while every field path the override does not define carries its value from
the config; and a subsequent read in override mode again reports the
override's vaults value. -/
theorem C1_amended (st : Storage) (cs : ConfigStore) (config W : Value)
    (cvs ovs : VList)
    (hwf : wfV config = true)
    (hws : st cs.wsOverrideLoc = some (encode W))
    (hhome : st cs.homeOverrideLoc = none)
    (hovv : getPath W ["workspace", "vaults"] = some (.varr ovs))
    (hcfg : getPath config ["workspace", "vaults"] = some (.varr cvs)) :
    ∃ stOut csOut,
      ConfigStore.write st cs config = .ok (subtractOverride config W, stOut, csOut) ∧
      getPath (subtractOverride config W) ["workspace", "vaults"] =
        (match diffVL cvs ovs with
         | .nil => none
         | d => some (.varr d)) ∧
      (diffVL cvs ovs = .nil →
        getPath (subtractOverride config W) ["workspace", "vaults"] = none) ∧
      (∀ q, objAlong W q = true → getPath W q = none →
        getPath (subtractOverride config W) q = getPath config q) ∧
      stOut cs.baseLoc = some (encode (subtractOverride config W)) ∧
      ∃ cs2, ConfigStore.read stOut csOut .withOverride false =
          .ok (deepMerge (deepMerge W (subtractOverride config W)) defaultConfig, cs2) ∧
        getPath (deepMerge (deepMerge W (subtractOverride config W)) defaultConfig)
          ["workspace", "vaults"] = some (.varr ovs) := by
  have hov : ConfigStore.resolveOverride st cs = .ok W := resolveOverride_ws st cs W hws hhome
  have hw : ConfigStore.write st cs config =
      .ok (subtractOverride config W,
           fun l => if l = cs.baseLoc then some (encode (subtractOverride config W)) else st l,
           { cs with cachePlain := none, cacheOverride := none }) := by
    simp [ConfigStore.write, hov]
  have harr : getPath (subtractOverride config W) ["workspace", "vaults"] =
      (match diffVL cvs ovs with
       | .nil => none
       | d => some (.varr d)) :=
    getPath_subtract_arr ["workspace", "vaults"] (by simp) config W cvs ovs hwf hcfg hovv
  refine ⟨_, _, hw, harr, ?_, ?_, by simp, ?_⟩
  · intro hd
    rw [harr, hd]
  · intro q ha hn
    cases q with
    | nil => simp [getPath] at hn
    | cons k rest => exact getPath_subtract_keep (k :: rest) (by simp) config W ha hn
  · have hbase2 : (fun l =>
        if l = cs.baseLoc then some (encode (subtractOverride config W)) else st l)
        ({ cs with cachePlain := none, cacheOverride := none } : ConfigStore).baseLoc =
        some (encode (subtractOverride config W)) := by
      simp [ConfigStore.baseLoc]
    have hws2 : (fun l =>
        if l = cs.baseLoc then some (encode (subtractOverride config W)) else st l)
        ({ cs with cachePlain := none, cacheOverride := none } : ConfigStore).wsOverrideLoc =
        some (encode W) := by
      have : ({ cs with cachePlain := none, cacheOverride := none } : ConfigStore).wsOverrideLoc =
          cs.wsOverrideLoc := rfl
      rw [this]
      simp only [if_neg (wsOverrideLoc_ne_baseLoc cs)]
      exact hws
    have hhome2 : (fun l =>
        if l = cs.baseLoc then some (encode (subtractOverride config W)) else st l)
        ({ cs with cachePlain := none, cacheOverride := none } : ConfigStore).homeOverrideLoc =
        none := by
      have : ({ cs with cachePlain := none, cacheOverride := none } : ConfigStore).homeOverrideLoc =
          cs.homeOverrideLoc := rfl
      rw [this]
      simp only [if_neg (homeOverrideLoc_ne_baseLoc cs)]
      exact hhome
    have hov2 := resolveOverride_ws
      (fun l => if l = cs.baseLoc then some (encode (subtractOverride config W)) else st l)
      { cs with cachePlain := none, cacheOverride := none } W hws2 hhome2
    refine ⟨_, read_fresh_override
      (fun l => if l = cs.baseLoc then some (encode (subtractOverride config W)) else st l)
      { cs with cachePlain := none, cacheOverride := none }
      (subtractOverride config W) W hbase2 hov2, ?_⟩
    have h1 : getPath (deepMerge W (subtractOverride config W)) ["workspace", "vaults"] =
        some (.varr ovs) :=
      getPath_deepMerge_left _ W _ _ hovv (by simp [Value.isObjB])
    exact getPath_deepMerge_left _ _ defaultConfig _ h1 (by simp [Value.isObjB])

/-- The store instance used for concrete scenarios. -/
def csTest : ConfigStore := { wsRoot := "ws", homeDir := "home" }

/-- The workspace-override content of the test scenario: it defines exactly
the field path workspace.vaults, as the array holding the bar vault. -/
def wsOverrideVal : Value :=
  .vobj (.cons "workspace"
    (.vobj (.cons "vaults" (.varr (.cons (vaultNamed "bar") .nil)) .nil)) .nil)

/-- Storage holding only the workspace-override file. -/
def stTest : Storage :=
  fun l => if l = csTest.wsOverrideLoc then some (encode wsOverrideVal) else none

/-- A fully-resolved config whose vaults are the foo vault and the bar vault. -/
def configFooBar : Value :=
  .vobj (.cons "workspace"
    (.vobj (.cons "vaults"
      (.varr (.cons (vaultNamed "foo") (.cons (vaultNamed "bar") .nil))) .nil)) .nil)

theorem homeLoc_ne_wsLoc_test : csTest.homeOverrideLoc ≠ csTest.wsOverrideLoc := by
  decide

theorem stTest_ws : stTest csTest.wsOverrideLoc = some (encode wsOverrideVal) := by
  simp [stTest]

theorem stTest_home : stTest csTest.homeOverrideLoc = none := by
  simp [stTest, if_neg homeLoc_ne_wsLoc_test]

/-- C1 counterexample: the claim asserts that for every fully-resolved config,
with a workspace override defining workspace.vaults, write persists a base
file in which vaults is absent.  With config.vaults = [foo, bar] and override
vaults = [bar], the persisted base keeps vaults = [foo] - exactly the
behavior the repository's own write test expects (set-subtraction of the
override's vaults, not removal of the field) - so the universally quantified
absence is false. -/
theorem C1_counterexample :
    ¬ (∀ P' rest, ConfigStore.write stTest csTest configFooBar = .ok (P', rest) →
        getPath P' ["workspace", "vaults"] = none) := by
  intro hcl
  have hov : ConfigStore.resolveOverride stTest csTest = .ok wsOverrideVal :=
    resolveOverride_ws _ _ _ stTest_ws stTest_home
  have h2 := hcl (subtractOverride configFooBar wsOverrideVal)
    (fun l => if l = csTest.baseLoc
        then some (encode (subtractOverride configFooBar wsOverrideVal))
        else stTest l,
     { csTest with cachePlain := none, cacheOverride := none })
    (by simp [ConfigStore.write, hov])
  rw [show getPath (subtractOverride configFooBar wsOverrideVal) ["workspace", "vaults"] =
      some (.varr (.cons (vaultNamed "foo") .nil)) from rfl] at h2
  exact Option.noConfusion h2

/-- A fully-resolved config whose vaults equal the override's vaults and which
carries a modified commands.lookup.note.selectionMode sibling field. -/
def configBarOnly : Value :=
  .vobj (.cons "workspace"
    (.vobj (.cons "vaults" (.varr (.cons (vaultNamed "bar") .nil)) .nil))
    (.cons "commands"
      (.vobj (.cons "lookup"
        (.vobj (.cons "note"
          (.vobj (.cons "selectionMode" (.vstr "none") .nil)) .nil)) .nil)) .nil))

/-- C1 witness: in the specified scenario (config.vaults equal to the
override's vaults), the persisted base has vaults absent while the modified
selectionMode sibling carries its value from the config. -/
theorem C1_witness :
    getPath (subtractOverride configBarOnly wsOverrideVal) ["workspace", "vaults"] = none ∧
    getPath (subtractOverride configBarOnly wsOverrideVal)
        ["commands", "lookup", "note", "selectionMode"] =
      getPath configBarOnly ["commands", "lookup", "note", "selectionMode"] := by
  obtain ⟨stOut, csOut, hw, harr, habs, hkeep, hbase, hread⟩ :=
    C1_amended stTest csTest configBarOnly wsOverrideVal
      (.cons (vaultNamed "bar") .nil) (.cons (vaultNamed "bar") .nil)
      rfl stTest_ws stTest_home rfl rfl
  exact ⟨habs rfl, hkeep ["commands", "lookup", "note", "selectionMode"] rfl rfl⟩

/-- The home-override content of the test scenario: vaults = [foo]. -/
def homeOverrideVal : Value :=
  .vobj (.cons "workspace"
    (.vobj (.cons "vaults" (.varr (.cons (vaultNamed "foo") .nil)) .nil)) .nil)

/-- A persisted base config that does not define workspace.vaults. -/
def baseNoVaults : Value := .vobj (.cons "version" (.vnum 5) .nil)

/-- Storage with base config, workspace override and home override present. -/
def stBoth : Storage :=
  fun l =>
    if l = csTest.baseLoc then some (encode baseNoVaults)
    else if l = csTest.wsOverrideLoc then some (encode wsOverrideVal)
    else if l = csTest.homeOverrideLoc then some (encode homeOverrideVal)
    else none

/-- Storage as stBoth after the workspace-override file is removed. -/
def stHomeOnly : Storage :=
  fun l =>
    if l = csTest.baseLoc then some (encode baseNoVaults)
    else if l = csTest.homeOverrideLoc then some (encode homeOverrideVal)
    else none

theorem stBoth_ws : stBoth csTest.wsOverrideLoc = some (encode wsOverrideVal) := by
  simp [stBoth, if_neg (wsOverrideLoc_ne_baseLoc csTest)]

theorem stBoth_home : stBoth csTest.homeOverrideLoc = some (encode homeOverrideVal) := by
  simp [stBoth, if_neg (homeOverrideLoc_ne_baseLoc csTest), if_neg homeLoc_ne_wsLoc_test]

theorem stBoth_base : stBoth csTest.baseLoc = some (encode baseNoVaults) := by
  simp [stBoth]

theorem wsLoc_ne_homeLoc_test : csTest.wsOverrideLoc ≠ csTest.homeOverrideLoc := by
  decide

theorem stHomeOnly_ws : stHomeOnly csTest.wsOverrideLoc = none := by
  simp [stHomeOnly, if_neg (wsOverrideLoc_ne_baseLoc csTest),
    if_neg wsLoc_ne_homeLoc_test]

theorem stHomeOnly_home : stHomeOnly csTest.homeOverrideLoc = some (encode homeOverrideVal) := by
  simp [stHomeOnly, if_neg (homeOverrideLoc_ne_baseLoc csTest)]

theorem stHomeOnly_base : stHomeOnly csTest.baseLoc = some (encode baseNoVaults) := by
  simp [stHomeOnly]

/-- C2 witness: with both override files present the workspace override's
vaults [bar] win; after removing the workspace-override file the home
override's vaults [foo] win. -/
theorem C2_witness :
    getPath (deepMerge (deepMerge (deepMerge wsOverrideVal homeOverrideVal) baseNoVaults)
        defaultConfig) ["workspace", "vaults"] =
      some (.varr (.cons (vaultNamed "bar") .nil)) ∧
    getPath (deepMerge (deepMerge homeOverrideVal baseNoVaults) defaultConfig)
        ["workspace", "vaults"] =
      some (.varr (.cons (vaultNamed "foo") .nil)) := by
  obtain ⟨-, -, ha, hb, -, -⟩ :=
    C2_override_precedence stBoth stHomeOnly csTest wsOverrideVal homeOverrideVal
      baseNoVaults ["workspace", "vaults"]
      stBoth_ws stBoth_home stBoth_base stHomeOnly_ws stHomeOnly_home stHomeOnly_base
  exact ⟨ha _ rfl rfl, hb _ rfl rfl⟩

/-- C3 witness: a fresh default-mode read on stBoth populates the cache; on
empty storage readRaw fails with a ReadError naming the base path while the
cached read still returns the cached resolved config. -/
theorem C3_witness :
    ConfigStore.readRaw (fun _ => none)
        (csTest.cacheSet .plain (deepMerge baseNoVaults defaultConfig)) =
      .error (.readError ((csTest.cacheSet .plain
        (deepMerge baseNoVaults defaultConfig)).baseLoc.path)) ∧
    ConfigStore.read (fun _ => none)
        (csTest.cacheSet .plain (deepMerge baseNoVaults defaultConfig)) .plain true =
      .ok (deepMerge baseNoVaults defaultConfig,
           csTest.cacheSet .plain (deepMerge baseNoVaults defaultConfig)) :=
  C3_cache_staleness stBoth (fun _ => none) csTest _ _
    (read_fresh_plain stBoth csTest baseNoVaults stBoth_base) rfl

/-- C4 witness: with base content missing preview and commands, a default-mode
read keeps the present leaf field version = 5 and reports the Default Config
Provider's values at preview and commands. -/
theorem C4_witness :
    getPath (deepMerge baseNoVaults defaultConfig) ["version"] = some (.vnum 5) ∧
    getPath (deepMerge baseNoVaults defaultConfig) ["preview"] =
      getPath defaultConfig ["preview"] ∧
    getPath (deepMerge baseNoVaults defaultConfig) ["commands"] =
      getPath defaultConfig ["commands"] := by
  obtain ⟨hpres, habs⟩ :=
    C4_read_default stBoth csTest _ baseNoVaults _ stBoth_base
      (read_fresh_plain stBoth csTest baseNoVaults stBoth_base)
  exact ⟨hpres ["version"] _ rfl rfl, habs ["preview"] rfl rfl, habs ["commands"] rfl rfl⟩

/-- C5 witness: with override files also present, readRaw returns exactly the
persisted partial config (vaults and preview stay absent, no override
applied). -/
theorem C5_witness : ConfigStore.readRaw stBoth csTest = .ok baseNoVaults :=
  C5_readRaw_exact stBoth csTest baseNoVaults stBoth_base

/-- C6 witness: the codec round-trips on a concrete config, a codec-produced
text decodes and re-encodes to itself, and readRaw returns exactly the
persisted value. -/
theorem C6_witness :
    decode (encode wsOverrideVal) = some wsOverrideVal ∧
    (∃ Q, decode (encode wsOverrideVal) = some Q ∧ encode Q = encode wsOverrideVal) ∧
    ConfigStore.readRaw stHomeOnly csTest = .ok baseNoVaults :=
  ⟨C6_codec_roundtrip.1 wsOverrideVal,
   C6_codec_roundtrip.2.1 (encode wsOverrideVal) ⟨wsOverrideVal, rfl⟩,
   C6_codec_roundtrip.2.2 stHomeOnly csTest baseNoVaults stHomeOnly_base⟩

/-- C7 witness: create on empty storage persists and returns the
schema-complete default config, and readRaw then reads it back. -/
theorem C7_witness :
    (ConfigStore.create (fun _ => none) csTest).1 = defaultConfig ∧
    (ConfigStore.create (fun _ => none) csTest).2 csTest.baseLoc =
      some (encode defaultConfig) ∧
    decode (encode defaultConfig) = some defaultConfig ∧
    ConfigStore.readRaw (ConfigStore.create (fun _ => none) csTest).2 csTest =
      .ok defaultConfig :=
  C7_create (fun _ => none) csTest (fun _ => rfl)

/-- C8 witness: on empty storage readRaw fails with a ReadError whose message
contains the attempted base path. -/
theorem C8_witness :
    ConfigStore.readRaw (fun _ => none) csTest =
      .error (.readError csTest.baseLoc.path) ∧
    ∃ pre post, (CsError.readError csTest.baseLoc.path).message =
      pre ++ csTest.baseLoc.path ++ post :=
  C8_readRaw_error_path (fun _ => none) csTest rfl

/-! ## Claims about LookupControllerV3 -/

/-- C9: in the LookupControllerV3 constructor, an absent fuzzThreshold option
and the value 0 both produce a controller whose fuzzThreshold is 0.6, so the
documented exact-match threshold 0.0 can never be configured through this
constructor. -/
theorem C9_fuzzThreshold :
    (∀ nt bs o, (o = none ∨ o = some 0) →
      (LookupControllerV3.construct nt bs o).fuzzThreshold = 0.6) ∧
    (∀ nt bs o, (LookupControllerV3.construct nt bs o).fuzzThreshold ≠ 0) := by
  constructor
  · rintro nt bs o (rfl | rfl) <;> simp [LookupControllerV3.construct]
  · intro nt bs o
    match o with
    | none =>
      simp only [LookupControllerV3.construct]
      norm_num
    | some x =>
      simp only [LookupControllerV3.construct]
      by_cases hx : x = 0
      · simp only [hx, if_pos rfl]
        norm_num
      · simp [hx]

/-- C9 witness: requesting the documented exact-match threshold 0 yields 0.6,
and a constructed controller never has threshold 0. -/
theorem C9_witness :
    (LookupControllerV3.construct "note" [] (some 0)).fuzzThreshold = 0.6 ∧
    (LookupControllerV3.construct "note" [] (some 0)).fuzzThreshold ≠ 0 :=
  ⟨C9_fuzzThreshold.1 "note" [] (some 0) (Or.inr rfl),
   C9_fuzzThreshold.2 "note" [] (some 0)⟩

theorem triggerList_pressed (cat : String → String) (ty : String)
    (l l' : List DendronBtn) (h : triggerList cat ty l = some l')
    (heff : cat ty ≠ "effect") :
    ∀ b ∈ l', b.btype ≠ ty → cat b.btype = cat ty → b.pressed = false := by
  induction l generalizing l' with
  | nil => simp [triggerList] at h
  | cons b0 rest ih =>
    by_cases hb : b0.btype = ty
    · rw [triggerList, if_pos hb, if_neg heff] at h
      cases h
      intro b hmem hbt hcat
      cases hmem with
      | head => exact absurd hb hbt
      | tail _ hmem2 =>
        obtain ⟨e, -, he⟩ := List.mem_map.mp hmem2
        by_cases hc : e.btype ≠ ty ∧ cat e.btype = cat ty
        · rw [if_pos hc] at he
          subst he
          rfl
        · rw [if_neg hc] at he
          subst he
          exact absurd ⟨hbt, hcat⟩ hc
    · rw [triggerList, if_neg hb] at h
      cases hr : triggerList cat ty rest with
      | none => rw [hr] at h; exact absurd h (by simp)
      | some r =>
        rw [hr] at h
        rw [show (match some r with
            | none => none
            | some r =>
              if cat ty = "effect" then some (b0 :: r)
              else some ((if b0.btype ≠ ty ∧ cat b0.btype = cat ty
                then { b0 with pressed := false } else b0) :: r) :
              Option (List DendronBtn)) =
            if cat ty = "effect" then some (b0 :: r)
            else some ((if b0.btype ≠ ty ∧ cat b0.btype = cat ty
              then { b0 with pressed := false } else b0) :: r) from rfl] at h
        rw [if_neg heff] at h
        cases h
        intro b hmem hbt hcat
        cases hmem with
        | head =>
          by_cases hc : b0.btype ≠ ty ∧ cat b0.btype = cat ty
          · rw [if_pos hc]
          · rw [if_neg hc] at hbt hcat
            exact absurd ⟨hbt, hcat⟩ hc
        | tail _ hmem2 => exact ih r hr b hmem2 hbt hcat

theorem triggerList_btypes (cat : String → String) (ty : String)
    (l l' : List DendronBtn) (h : triggerList cat ty l = some l') :
    l'.map DendronBtn.btype = l.map DendronBtn.btype := by
  induction l generalizing l' with
  | nil => simp [triggerList] at h
  | cons b0 rest ih =>
    by_cases hb : b0.btype = ty
    · rw [triggerList, if_pos hb] at h
      by_cases heff : cat ty = "effect"
      · rw [if_pos heff] at h
        cases h
        simp
      · rw [if_neg heff] at h
        cases h
        simp only [List.map_cons, List.map_map, List.cons.injEq]
        refine ⟨trivial, ?_⟩
        apply List.map_congr_left
        intro e _
        by_cases hc : e.btype ≠ ty ∧ cat e.btype = cat ty
        · rw [Function.comp_apply, if_pos hc]
        · rw [Function.comp_apply, if_neg hc]
    · rw [triggerList, if_neg hb] at h
      cases hr : triggerList cat ty rest with
      | none => rw [hr] at h; exact absurd h (by simp)
      | some r =>
        rw [hr] at h
        rw [show (match some r with
            | none => none
            | some r =>
              if cat ty = "effect" then some (b0 :: r)
              else some ((if b0.btype ≠ ty ∧ cat b0.btype = cat ty
                then { b0 with pressed := false } else b0) :: r) :
              Option (List DendronBtn)) =
            if cat ty = "effect" then some (b0 :: r)
            else some ((if b0.btype ≠ ty ∧ cat b0.btype = cat ty
              then { b0 with pressed := false } else b0) :: r) from rfl] at h
        by_cases heff : cat ty = "effect"
        · rw [if_pos heff] at h
          cases h
          simp [ih r hr]
        · rw [if_neg heff] at h
          cases h
          simp only [List.map_cons, List.cons.injEq]
          refine ⟨?_, ih r hr⟩
          by_cases hc : b0.btype ≠ ty ∧ cat b0.btype = cat ty
          · rw [if_pos hc]
          · rw [if_neg hc]

/-- C10 (amended): after onTriggerButton with an initialized quickpick and a
non-effect triggered category, every button whose type differs from the
triggered type and whose category equals the triggered button's category is
unpressed; consequently, when the button types are pairwise distinct, at most
one button of the triggered button's category is pressed. -/
theorem C10_amended (cat : String → String) (c c' : LookupControllerV3) (ty : String)
    (h : onTriggerButton cat c ty = some c')
    (hq : c.quickpickInit = true)
    (heff : cat ty ≠ "effect") :
    (∀ b, b ∈ c'.buttons → b.btype ≠ ty → cat b.btype = cat ty → b.pressed = false) ∧
    ((c.buttons.map DendronBtn.btype).Nodup →
      (c'.buttons.countP fun b => decide (cat b.btype = cat ty) && b.pressed) ≤ 1) := by
  rw [onTriggerButton, if_neg (by simp [hq])] at h
  cases ht : triggerList cat ty c.buttons with
  | none => rw [ht] at h; exact absurd h (by simp)
  | some bs =>
    rw [ht] at h
    cases h
    constructor
    · exact fun b hm => triggerList_pressed cat ty c.buttons bs ht heff b hm
    · intro hnd
      have himp : ∀ b ∈ bs, (decide (cat b.btype = cat ty) && b.pressed) = true →
          (b.btype == ty) = true := by
        intro b hm hp
        simp only [Bool.and_eq_true, decide_eq_true_eq] at hp
        by_cases hbt : b.btype = ty
        · simp [hbt]
        · have := triggerList_pressed cat ty c.buttons bs ht heff b hm hbt hp.1
          rw [this] at hp
          exact absurd hp.2 (by simp)
      calc (bs.countP fun b => decide (cat b.btype = cat ty) && b.pressed)
          ≤ bs.countP fun b => b.btype == ty := List.countP_mono_left himp
        _ = (bs.map DendronBtn.btype).countP fun x => x == ty := by
            rw [List.countP_map]
            rfl
        _ = (c.buttons.map DendronBtn.btype).countP fun x => x == ty := by
            rw [triggerList_btypes cat ty c.buttons bs ht]
        _ = (c.buttons.map DendronBtn.btype).count ty := by
            rw [List.count]
        _ ≤ 1 := List.nodup_iff_count_le_one.mp hnd ty

/-- Controller state for the C10 counterexample: the quickpick is initialized
and two buttons share the type a (as can be produced by the create factory's
concatenation of buttons and extraButtons); the second one is pressed. -/
def cCex : LookupControllerV3 :=
  { nodeType := "note"
    buttons := [{ btype := "a", pressed := false }, { btype := "a", pressed := true }]
    buttonsPrev := []
    fuzzThreshold := 0.6
    quickpickInit := true }

/-- C10 counterexample: triggering type a toggles only the first matching
button; the second button - another button in state.buttons with the same
non-effect category as the triggered button - stays pressed, so afterwards
two buttons of one non-effect category are pressed, refuting the claim. -/
theorem C10_counterexample :
    ¬ (∀ c', onTriggerButton (fun _ => "selection") cCex "a" = some c' →
        ∀ i (hi : i < c'.buttons.length), i ≠ 0 →
          (fun (_ : String) => "selection") (c'.buttons.get ⟨i, hi⟩).btype =
            (fun (_ : String) => "selection") "a" →
          (c'.buttons.get ⟨i, hi⟩).pressed = false) := by
  intro hcl
  have h1 := hcl
    { cCex with buttons :=
        [{ btype := "a", pressed := true }, { btype := "a", pressed := true }] }
    rfl 1 (by decide) (by decide) rfl
  exact absurd h1 (by decide)

/-- Controller state for the C10 witness: distinct button types of one
category, the second button initially pressed. -/
def cW : LookupControllerV3 :=
  { nodeType := "note"
    buttons := [{ btype := "a", pressed := false }, { btype := "b", pressed := true }]
    buttonsPrev := []
    fuzzThreshold := 0.6
    quickpickInit := true }

/-- C10 witness: on a distinct-type button list, after triggering a the other
same-category button b is unpressed and at most one button of the category is
pressed. -/
theorem C10_witness :
    (∀ b, b ∈ ({ cW with buttons :=
        [{ btype := "a", pressed := true }, { btype := "b", pressed := false }] } :
        LookupControllerV3).buttons →
      b.btype ≠ "a" → (fun (_ : String) => "selection") b.btype =
        (fun (_ : String) => "selection") "a" → b.pressed = false) ∧
    ((({ cW with buttons :=
        [{ btype := "a", pressed := true }, { btype := "b", pressed := false }] } :
        LookupControllerV3).buttons.countP
      fun b => decide ((fun (_ : String) => "selection") b.btype =
        (fun (_ : String) => "selection") "a") && b.pressed) ≤ 1) := by
  obtain ⟨h1, h2⟩ :=
    C10_amended (fun _ => "selection") cW
      { cW with buttons :=
          [{ btype := "a", pressed := true }, { btype := "b", pressed := false }] }
      "a" rfl rfl (by decide)
  exact ⟨h1, h2 (by decide)⟩
